import Mathlib

/-!
Shallow embedding of `ch10/behavioral_cloning/train.py`: the dataset
preparer `read_data` (rare-event inflation, shuffling, label derivation,
filtering of unrecognized actions, down-sampling of the accelerate class),
the train/validation split of `create_datasets`, the per-epoch event order
of `train`, and the call structure of a program run.

Randomness is made explicit: the `random.shuffle` call becomes a function
parameter `shuffle`, and the `np.random.rand` draws become a parameter
`rng : Nat -> Rat` giving the k-th uniform draw; the code consumes one draw
per accelerate-labeled sample, in order.
-/

/-- A recorded transition tuple, as produced by `keyboard_agent.py` and
unpacked by `states, actions, _, _, _ = map(np.array, zip(*data))`:
five components, of which `read_data` uses only the first two (the state
image, kept opaque of type `sigma`, and the action vector). -/
structure Transition (σ : Type) where
  state : σ
  action : List Int
  reward : Int
  next_state : σ
  is_done : Bool
deriving DecidableEq

/-- `MULTIPLY_RARE_EVENTS = 30` from train.py. -/
def MULTIPLY_RARE_EVENTS : Nat := 30

/-- `EPOCHS = 30` from train.py. -/
def EPOCHS : Nat := 30

/-- `DATA_DIR = 'data'` from train.py. -/
def DATA_DIR : String := "data"

/-- `MODEL_FILE = 'model.pt'` from train.py. -/
def MODEL_FILE : String := "model.pt"

/-- Modelled from the spec: `available_actions` is imported from
`ch10.behavioral_cloning.util`, a file of this repository that is not under
src/.  The spec describes a small fixed enumeration of exact action-vector
patterns (steer-left, steer-right, accelerate, brake and brake
combinations), with accelerate being `[0, 1, 0]` and the first three
enumerated patterns being accelerate, brake `[0, 0, 1]` and left+brake
`[-1, 0, 1]`. -/
def available_actions : List (List Int) :=
  [[0, 1, 0], [0, 0, 1], [-1, 0, 1], [1, 0, 1], [-1, 0, 0], [1, 0, 0], [0, 0, 0]]

/-- The three designated rare patterns hard-coded in `read_data`:
`[[-1, 0, 1], [1, 0, 1], [0, 0, 1]]`. -/
def rare_event_patterns : List (List Int) :=
  [[-1, 0, 1], [1, 0, 1], [0, 0, 1]]

/-- The copies appended for one transition by the inner loops of the
inflation step: for each rare pattern `a`, if `np.array_equal(d[1], a)`
then `data_copy += (d,) * MULTIPLY_RARE_EVENTS` appends `m` copies of `d`. -/
def rare_copies {σ : Type} (m : Nat) (d : Transition σ) : List (Transition σ) :=
  rare_event_patterns.flatMap (fun a =>
    if d.action = a then List.replicate m d else [])

/-- The inflation step of `read_data`: guarded by
`if MULTIPLY_RARE_EVENTS > 1`, it starts from `data.copy()` and appends the
rare copies of each transition of `data`, in iteration order. -/
def inflate {σ : Type} (m : Nat) (data : List (Transition σ)) : List (Transition σ) :=
  if m > 1 then data ++ data.flatMap (rare_copies m) else data

/-- The running value of one row of `act_classes` while the loop
`for i, a in enumerate(available_actions)` walks the pattern list `ps`
carrying the next index `i` and the current value `cur`: a row equal to the
pattern is overwritten with the pattern index. -/
def derive_label_aux (act : List Int) : List (List Int) → Nat → Int → Int
  | [], _, cur => cur
  | p :: ps, i, cur =>
      derive_label_aux act ps (i + 1) (if act = p then (i : Int) else cur)

/-- The class label of one action vector: `np.full` initializes to the
sentinel `-1`, then the enumeration loop overwrites matching rows. -/
def derive_label (act : List Int) : Int :=
  derive_label_aux act available_actions 0 (-1)

/-- Boolean-mask indexing `xs[mask]` of numpy, for parallel lists. -/
def mask_filter {α : Type} : List Bool → List α → List α
  | true :: ms, x :: xs => x :: mask_filter ms xs
  | false :: ms, _ :: xs => mask_filter ms xs
  | _, _ => []

/-- The class index of the accelerate pattern,
`available_actions.index([0, 1, 0])`. -/
def accel_class : Int := (available_actions.indexOf [0, 1, 0] : Nat)

/-- The keep mask of the down-sampling step: `non_accel` is true off the
accelerate class; `drop_mask = np.random.rand(...) > 0.7` is written into
the accelerate positions by `non_accel[~non_accel] = drop_mask`, so the
k-th accelerate-labeled sample is kept exactly when its draw `rng k`
exceeds 0.7, and every other sample is kept. -/
def down_mask (accel : Int) (rng : Nat → ℚ) : List Int → Nat → List Bool
  | [], _ => []
  | c :: cs, k =>
      if c = accel then decide (rng k > 7/10) :: down_mask accel rng cs (k + 1)
      else true :: down_mask accel rng cs k

/-- `read_data` of train.py, after the pickle load: inflation, shuffle,
unzip into parallel `states` and `actions` arrays, label derivation,
dropping of sentinel-labeled rows from both arrays, and down-sampling of
the accelerate class from both arrays. Returns `(states, act_classes)`. -/
def read_data {σ : Type} (m : Nat)
    (shuffle : List (Transition σ) → List (Transition σ))
    (rng : Nat → ℚ) (data0 : List (Transition σ)) : List σ × List Int :=
  let data := shuffle (inflate m data0)
  let states := data.map Transition.state
  let actions := data.map Transition.action
  let act_classes := actions.map derive_label
  let keep1 := act_classes.map (fun c => decide (c ≠ -1))
  let states1 := mask_filter keep1 states
  let act_classes1 := mask_filter keep1 act_classes
  let keep2 := down_mask accel_class rng act_classes1 0
  (mask_filter keep2 states1, mask_filter keep2 act_classes1)

/-- A transition is kept by the sentinel filter when its label is not -1. -/
def recognized {σ : Type} (d : Transition σ) : Bool :=
  decide (derive_label d.action ≠ -1)

/-- `TRAIN_VAL_SPLIT = 0.85` from train.py, as the exact rational 85/100;
`int(n * TRAIN_VAL_SPLIT)` is the floor `n * 85 / 100`. -/
def split_index (n : Nat) : Nat := n * 85 / 100

/-- The data split of `create_datasets`: `x_train = x[:int(len(x) * 0.85)]`,
`y_train = y[:int(len(y) * 0.85)]`, and the remainders
`x[int(len(x_train)):]`, `y[int(len(y_train)):]` form the validation set.
Returns `((x_train, y_train), (x_test, y_test))`. -/
def create_datasets {σ : Type} (x : List σ) (y : List Int) :
    (List σ × List Int) × (List σ × List Int) :=
  let x_train := x.take (split_index x.length)
  let y_train := y.take (split_index y.length)
  let x_test := x.drop x_train.length
  let y_test := y.drop y_train.length
  ((x_train, y_train), (x_test, y_test))

/-- The observable steps of one epoch of `train`. -/
inductive TrainEvent where
  | epoch_banner (epoch : Nat)
  | run_train_epoch (epoch : Nat)
  | run_eval (epoch : Nat)
  | save_model (epoch : Nat) (path : String)
deriving DecidableEq

/-- `os.path.join(DATA_DIR, MODEL_FILE)`, the fixed checkpoint path. -/
def model_path : String := DATA_DIR ++ "/" ++ MODEL_FILE

/-- The body of one iteration of `for epoch in range(EPOCHS)` in `train`:
print the banner, run `train_epoch`, run `test` on the validation loader,
then `torch.save(model.state_dict(), model_path)`, unconditionally. -/
def epoch_body (e : Nat) : List TrainEvent :=
  [TrainEvent.epoch_banner e, TrainEvent.run_train_epoch e,
   TrainEvent.run_eval e, TrainEvent.save_model e model_path]

/-- The full event trace of the epoch loop of `train`. -/
def train_trace : List TrainEvent := (List.range EPOCHS).flatMap epoch_body

/-- Whether an event is a checkpoint write. -/
def is_save : TrainEvent → Bool
  | TrainEvent.save_model _ _ => true
  | _ => false

/-- Marker for one invocation of `read_data`. -/
inductive PrepCall where
  | read_data_invocation
deriving DecidableEq

/-- The `read_data` invocations made while Python evaluates the module body
of train.py: the import and def statements invoke nothing, and the bare
top-level statement `read_data()` on line 73 invokes it once. -/
def module_load_calls : List PrepCall := [PrepCall.read_data_invocation]

/-- The `read_data` invocations made by one call of `train`: `train` calls
`create_datasets` once, which calls `read_data` once on line 92; no other
statement of `train`, `train_epoch` or `test` calls `read_data`. -/
def train_loop_calls : List PrepCall := [PrepCall.read_data_invocation]

/-- A complete training run: Python first evaluates the module body, then
`train(model, device)` runs. -/
def full_run_calls : List PrepCall := module_load_calls ++ train_loop_calls

/-- The ways loading the input file can fail, per the spec: missing input
file, malformed records, shape mismatch. -/
inductive LoadError where
  | missing_input_file
  | malformed_records
  | shape_mismatch
deriving DecidableEq

/-- `read_data` including its fallible load: the file read and unpickling
either fail with an exception or yield the transition list; train.py has no
try/except, so a failure propagates unchanged and no arrays are returned. -/
def read_data_run {σ : Type} (m : Nat)
    (shuffle : List (Transition σ) → List (Transition σ)) (rng : Nat → ℚ)
    (loaded : Except LoadError (List (Transition σ))) :
    Except LoadError (List σ × List Int) :=
  match loaded with
  | Except.error e => Except.error e
  | Except.ok data => Except.ok (read_data m shuffle rng data)

/-- The training loop up to the dataset split: `train` calls
`create_datasets`, which calls `read_data`; an exception from the load
propagates through both with no recovery, retry or partial result. -/
def train_run {σ : Type} (m : Nat)
    (shuffle : List (Transition σ) → List (Transition σ)) (rng : Nat → ℚ)
    (loaded : Except LoadError (List (Transition σ))) :
    Except LoadError ((List σ × List Int) × (List σ × List Int)) :=
  match read_data_run m shuffle rng loaded with
  | Except.error e => Except.error e
  | Except.ok (x, y) => Except.ok (create_datasets x y)

/-- The synthetic four-transition dataset of the end-to-end property: one
transition per pattern in {accelerate, brake, left+brake, unrecognized}. -/
def synthetic4 : List (Transition Nat) :=
  [⟨0, [0, 1, 0], 0, 0, false⟩,
   ⟨1, [0, 0, 1], 0, 0, false⟩,
   ⟨2, [-1, 0, 1], 0, 0, false⟩,
   ⟨3, [7, 7, 7], 0, 0, false⟩]

/-! ### Helper lemmas about the embedded operations -/

theorem mask_filter_map_map {α β : Type} (q : α → Bool) (f : α → β) :
    ∀ l : List α, mask_filter (l.map q) (l.map f) = (l.filter q).map f := by
  intro l
  induction l with
  | nil => rfl
  | cons x xs ih =>
      by_cases hx : q x
      · simp [mask_filter, hx, List.filter_cons, ih]
      · simp only [Bool.not_eq_true] at hx
        simp [mask_filter, hx, List.filter_cons, ih]

theorem mask_filter_zip {α β : Type} :
    ∀ (ms : List Bool) (xs : List α) (ys : List β),
      mask_filter ms (List.zip xs ys) =
        List.zip (mask_filter ms xs) (mask_filter ms ys) := by
  intro ms
  induction ms with
  | nil => intro xs ys; cases xs <;> cases ys <;> rfl
  | cons b ms ih =>
      intro xs ys
      cases xs with
      | nil => cases b <;> rfl
      | cons x xs =>
          cases ys with
          | nil => cases b <;> simp [mask_filter, List.zip_nil_right]
          | cons y ys =>
              cases b with
              | true =>
                  simp only [List.zip_cons_cons, mask_filter, List.cons.injEq,
                    true_and]
                  exact ih xs ys
              | false =>
                  simp only [List.zip_cons_cons, mask_filter]
                  exact ih xs ys

theorem mem_of_mem_mask_filter {α : Type} :
    ∀ (ms : List Bool) (xs : List α) (x : α), x ∈ mask_filter ms xs → x ∈ xs := by
  intro ms
  induction ms with
  | nil => intro xs x h; cases xs <;> simp [mask_filter] at h
  | cons b ms ih =>
      intro xs x h
      cases xs with
      | nil => simp [mask_filter] at h
      | cons z zs =>
          cases b with
          | true =>
              simp only [mask_filter, List.mem_cons] at h
              rcases h with h | h
              · subst h; exact List.mem_cons_self _ _
              · exact List.mem_cons_of_mem z (ih zs x h)
          | false =>
              simp only [mask_filter] at h
              exact List.mem_cons_of_mem z (ih zs x h)

theorem mask_filter_length_congr {α β : Type} :
    ∀ (ms : List Bool) (xs : List α) (ys : List β), xs.length = ys.length →
      (mask_filter ms xs).length = (mask_filter ms ys).length := by
  intro ms
  induction ms with
  | nil => intro xs ys _; cases xs <;> cases ys <;> rfl
  | cons b ms ih =>
      intro xs ys hlen
      cases xs with
      | nil => cases ys with
        | nil => cases b <;> rfl
        | cons y ys => simp at hlen
      | cons x xs =>
          cases ys with
          | nil => simp at hlen
          | cons y ys =>
              simp only [List.length_cons, Nat.add_right_cancel_iff] at hlen
              cases b with
              | true => simp [mask_filter, ih xs ys hlen]
              | false => simp [mask_filter, ih xs ys hlen]

theorem mask_filter_replicate_true {α : Type} :
    ∀ xs : List α, mask_filter (List.replicate xs.length true) xs = xs := by
  intro xs
  induction xs with
  | nil => rfl
  | cons x xs ih => simp [List.replicate, mask_filter, ih]

theorem derive_label_aux_spec (act : List Int) :
    ∀ (ps : List (List Int)) (i : Nat) (cur : Int),
      derive_label_aux act ps i cur = cur ∨
      ∃ j, ∃ h : j < ps.length, ps.get ⟨j, h⟩ = act ∧
        derive_label_aux act ps i cur = ((i + j : Nat) : Int) := by
  intro ps
  induction ps with
  | nil => intro i cur; exact Or.inl rfl
  | cons p ps ih =>
      intro i cur
      by_cases hap : act = p
      · rcases ih (i + 1) (i : Int) with h | ⟨j, hj, hget, hres⟩
        · refine Or.inr ⟨0, by simp, by simpa using hap.symm, ?_⟩
          simpa [derive_label_aux, hap] using h
        · refine Or.inr ⟨j + 1, by simpa using hj, by simpa using hget, ?_⟩
          rw [derive_label_aux, if_pos hap]
          rw [hres]
          congr 1
          omega
      · rcases ih (i + 1) cur with h | ⟨j, hj, hget, hres⟩
        · exact Or.inl (by simpa [derive_label_aux, hap] using h)
        · refine Or.inr ⟨j + 1, by simpa using hj, by simpa using hget, ?_⟩
          rw [derive_label_aux, if_neg hap]
          rw [hres]
          congr 1
          omega

theorem derive_label_spec (act : List Int) (h : derive_label act ≠ -1) :
    ∃ j, ∃ hj : j < available_actions.length,
      available_actions.get ⟨j, hj⟩ = act ∧ derive_label act = (j : Int) := by
  rcases derive_label_aux_spec act available_actions 0 (-1) with h0 | ⟨j, hj, hget, hres⟩
  · exact absurd h0 h
  · exact ⟨j, hj, hget, by simpa using hres⟩

theorem available_actions_nodup : available_actions.Nodup := by decide

theorem down_mask_length (accel : Int) (rng : Nat → ℚ) :
    ∀ (cs : List Int) (k : Nat), (down_mask accel rng cs k).length = cs.length := by
  intro cs
  induction cs with
  | nil => intro k; rfl
  | cons c cs ih =>
      intro k
      by_cases hc : c = accel
      · simp [down_mask, hc, ih]
      · simp [down_mask, hc, ih]

theorem down_mask_getD (accel : Int) (rng : Nat → ℚ) :
    ∀ (cs : List Int) (k j : Nat) (h : j < cs.length),
      (down_mask accel rng cs k).getD j false =
        if cs.get ⟨j, h⟩ = accel
        then decide (rng (k + (cs.take j).count accel) > 7/10)
        else true := by
  intro cs
  induction cs with
  | nil => intro k j h; simp at h
  | cons c cs ih =>
      intro k j h
      cases j with
      | zero =>
          by_cases hc : c = accel
          · simp [down_mask, hc]
          · simp [down_mask, hc]
      | succ j =>
          have hj : j < cs.length := by simpa using h
          by_cases hc : c = accel
          · rw [down_mask, if_pos hc]
            simp only [List.getD_cons_succ]
            rw [ih (k + 1) j hj]
            have harg : k + 1 + (cs.take j).count accel =
                k + ((c :: cs).take (j + 1)).count accel := by
              simp [List.count_cons, hc]
              omega
            rw [harg]
            rfl
          · rw [down_mask, if_neg hc]
            simp only [List.getD_cons_succ]
            rw [ih k j hj]
            have harg : k + (cs.take j).count accel =
                k + ((c :: cs).take (j + 1)).count accel := by
              simp [List.count_cons, hc]
            rw [harg]
            rfl

theorem down_mask_all_true (accel : Int) (rng : Nat → ℚ)
    (h : ∀ k, rng k > 7/10) :
    ∀ (cs : List Int) (k : Nat),
      down_mask accel rng cs k = List.replicate cs.length true := by
  intro cs
  induction cs with
  | nil => intro k; rfl
  | cons c cs ih =>
      intro k
      by_cases hc : c = accel
      · simp [down_mask, hc, ih, List.replicate, decide_eq_true (h k)]
      · simp [down_mask, hc, ih, List.replicate]

theorem read_data_eq {σ : Type} (m : Nat)
    (shuffle : List (Transition σ) → List (Transition σ)) (rng : Nat → ℚ)
    (data0 : List (Transition σ)) :
    read_data m shuffle rng data0 =
      (mask_filter
         (down_mask accel_class rng
           (((shuffle (inflate m data0)).filter recognized).map
             (fun d => derive_label d.action)) 0)
         (((shuffle (inflate m data0)).filter recognized).map Transition.state),
       mask_filter
         (down_mask accel_class rng
           (((shuffle (inflate m data0)).filter recognized).map
             (fun d => derive_label d.action)) 0)
         (((shuffle (inflate m data0)).filter recognized).map
           (fun d => derive_label d.action))) := by
  simp only [read_data, List.map_map]
  rw [mask_filter_map_map, mask_filter_map_map]
  rfl

theorem read_data_pair_mem {σ : Type} (m : Nat)
    (shuffle : List (Transition σ) → List (Transition σ)) (rng : Nat → ℚ)
    (data0 : List (Transition σ)) (s : σ) (c : Int)
    (hmem : (s, c) ∈ List.zip (read_data m shuffle rng data0).1
      (read_data m shuffle rng data0).2) :
    ∃ d ∈ shuffle (inflate m data0),
      d.state = s ∧ derive_label d.action = c ∧ c ≠ -1 := by
  rw [read_data_eq] at hmem
  simp only at hmem
  rw [← mask_filter_zip] at hmem
  have h1 := mem_of_mem_mask_filter _ _ _ hmem
  rw [List.zip_map'] at h1
  rcases List.mem_map.mp h1 with ⟨d, hd, heq⟩
  rcases List.mem_filter.mp hd with ⟨hdmem, hrec⟩
  simp only [recognized, decide_eq_true_eq] at hrec
  rcases Prod.mk.injEq .. ▸ heq with ⟨hs, hc⟩
  exact ⟨d, hdmem, hs, hc, hc ▸ hrec⟩

theorem read_data_lengths {σ : Type} (m : Nat)
    (shuffle : List (Transition σ) → List (Transition σ)) (rng : Nat → ℚ)
    (data0 : List (Transition σ)) :
    (read_data m shuffle rng data0).1.length =
      (read_data m shuffle rng data0).2.length := by
  rw [read_data_eq]
  exact mask_filter_length_congr _ _ _ (by simp)

theorem read_data_label_mem {σ : Type} (m : Nat)
    (shuffle : List (Transition σ) → List (Transition σ)) (rng : Nat → ℚ)
    (data0 : List (Transition σ)) (c : Int)
    (hmem : c ∈ (read_data m shuffle rng data0).2) :
    ∃ d ∈ shuffle (inflate m data0),
      derive_label d.action = c ∧ c ≠ -1 := by
  rw [read_data_eq] at hmem
  simp only at hmem
  have h1 := mem_of_mem_mask_filter _ _ _ hmem
  rcases List.mem_map.mp h1 with ⟨d, hd, heq⟩
  rcases List.mem_filter.mp hd with ⟨hdmem, hrec⟩
  simp only [recognized, decide_eq_true_eq] at hrec
  exact ⟨d, hdmem, heq, heq ▸ hrec⟩

theorem rare_copies_eq {σ : Type} (m : Nat) (d : Transition σ) :
    rare_copies m d =
      if d.action ∈ rare_event_patterns then List.replicate m d else [] := by
  by_cases h1 : d.action = [-1, 0, 1]
  · simp [rare_copies, rare_event_patterns, h1]
  · by_cases h2 : d.action = [1, 0, 1]
    · simp [rare_copies, rare_event_patterns, h1, h2]
    · by_cases h3 : d.action = [0, 0, 1]
      · simp [rare_copies, rare_event_patterns, h1, h2, h3]
      · simp [rare_copies, rare_event_patterns, h1, h2, h3]

theorem count_flatMap_rare {σ : Type} [DecidableEq (Transition σ)]
    (m : Nat) (t : Transition σ) :
    ∀ data : List (Transition σ),
      (data.flatMap (rare_copies m)).count t =
        (if t.action ∈ rare_event_patterns then m else 0) * data.count t := by
  intro data
  induction data with
  | nil => simp
  | cons d ds ih =>
      rw [List.flatMap_cons, List.count_append, ih, rare_copies_eq,
        List.count_cons]
      have hhead : List.count t
          (if d.action ∈ rare_event_patterns then List.replicate m d else []) =
          if t.action ∈ rare_event_patterns then (if d = t then m else 0)
          else 0 := by
        by_cases htd : d = t
        · subst htd
          by_cases hr : d.action ∈ rare_event_patterns <;>
            simp [hr, List.count_replicate]
        · have htd2 : ¬t = d := fun h => htd h.symm
          by_cases hr : d.action ∈ rare_event_patterns <;>
            simp [hr, List.count_replicate, htd, htd2]
      rw [hhead]
      by_cases hrt : t.action ∈ rare_event_patterns <;>
        by_cases htd : d = t <;> (simp [hrt, htd]; try ring)

theorem inflate_count {σ : Type} [DecidableEq (Transition σ)] (m : Nat)
    (hm : m > 1) (data : List (Transition σ)) (t : Transition σ) :
    (inflate m data).count t =
      data.count t + (if t.action ∈ rare_event_patterns then m else 0) *
        data.count t := by
  rw [inflate, if_pos hm, List.count_append, count_flatMap_rare]

theorem inflate_skip {σ : Type} (m : Nat) (hm : m ≤ 1)
    (data : List (Transition σ)) : inflate m data = data := by
  rw [inflate, if_neg (by omega)]

theorem split_index_le (n : Nat) : split_index n ≤ n := by
  unfold split_index
  omega

/-! ### Claim theorems -/

/-- Claim C3: with the configured multiplier `MULTIPLY_RARE_EVENTS`, every
input transition whose action vector equals one of the three designated
rare patterns occurs exactly `1 + MULTIPLY_RARE_EVENTS` times in the
inflated collection, and a transition matching no rare pattern is not
duplicated. -/
theorem claim3_inflation_copies (data : List (Transition Nat))
    (t : Transition Nat) :
    (t.action ∈ rare_event_patterns → data.count t = 1 →
      (inflate MULTIPLY_RARE_EVENTS data).count t =
        1 + MULTIPLY_RARE_EVENTS) ∧
    (t.action ∉ rare_event_patterns →
      (inflate MULTIPLY_RARE_EVENTS data).count t = data.count t) := by
  constructor
  · intro hr h1
    rw [inflate_count MULTIPLY_RARE_EVENTS (by decide) data t, h1, if_pos hr]
    ring
  · intro hr
    rw [inflate_count MULTIPLY_RARE_EVENTS (by decide) data t, if_neg hr]
    ring

/-- Witness for C3 at a concrete one-element dataset holding one brake
transition. -/
theorem claim3_witness :
    (inflate MULTIPLY_RARE_EVENTS
        [(⟨1, [0, 0, 1], 0, 0, false⟩ : Transition Nat)]).count
      ⟨1, [0, 0, 1], 0, 0, false⟩ = 1 + MULTIPLY_RARE_EVENTS :=
  (claim3_inflation_copies [⟨1, [0, 0, 1], 0, 0, false⟩]
    ⟨1, [0, 0, 1], 0, 0, false⟩).1 (by decide) (by decide)

/-- Claim C10: with a multiplier not greater than 1 the inflation step is
skipped entirely, so a rare-pattern transition occurring once in the input
occurs exactly once in the pre-shuffle collection. -/
theorem claim10_inflation_skipped (m : Nat) (hm : m ≤ 1)
    (data : List (Transition Nat)) (t : Transition Nat) :
    inflate m data = data ∧
    (t.action ∈ rare_event_patterns → data.count t = 1 →
      (inflate m data).count t = 1) := by
  refine ⟨inflate_skip m hm data, fun _ h1 => ?_⟩
  rw [inflate_skip m hm data, h1]

/-- Witness for C10 at multiplier 1 and a concrete one-element dataset. -/
theorem claim10_witness :
    inflate 1 [(⟨1, [0, 0, 1], 0, 0, false⟩ : Transition Nat)] =
        [⟨1, [0, 0, 1], 0, 0, false⟩] ∧
    (inflate 1 [(⟨1, [0, 0, 1], 0, 0, false⟩ : Transition Nat)]).count
        ⟨1, [0, 0, 1], 0, 0, false⟩ = 1 := by
  have h := claim10_inflation_skipped 1 (by decide)
    [⟨1, [0, 0, 1], 0, 0, false⟩] ⟨1, [0, 0, 1], 0, 0, false⟩
  exact ⟨h.1, h.2 (by decide) (by decide)⟩

/-- Claim C6: `create_datasets` splits the prepared data at the fixed ratio
0.85: the training split is exactly the first `floor(0.85 * n)` samples of
each array, the validation split is exactly the rest, and together they
cover every sample. -/
theorem claim6_split_ratio (x : List Nat) (y : List Int) :
    (create_datasets x y).1.1 ++ (create_datasets x y).2.1 = x ∧
    (create_datasets x y).1.2 ++ (create_datasets x y).2.2 = y ∧
    (create_datasets x y).1.1 = x.take (split_index x.length) ∧
    (create_datasets x y).1.2 = y.take (split_index y.length) ∧
    (create_datasets x y).1.1.length = split_index x.length ∧
    (create_datasets x y).1.2.length = split_index y.length ∧
    (create_datasets x y).2.1 = x.drop (split_index x.length) ∧
    (create_datasets x y).2.2 = y.drop (split_index y.length) := by
  have hx : (x.take (split_index x.length)).length = split_index x.length := by
    rw [List.length_take]
    exact Nat.min_eq_left (split_index_le _)
  have hy : (y.take (split_index y.length)).length = split_index y.length := by
    rw [List.length_take]
    exact Nat.min_eq_left (split_index_le _)
  constructor
  · show x.take (split_index x.length) ++
        x.drop (x.take (split_index x.length)).length = x
    rw [hx]
    exact List.take_append_drop _ x
  constructor
  · show y.take (split_index y.length) ++
        y.drop (y.take (split_index y.length)).length = y
    rw [hy]
    exact List.take_append_drop _ y
  refine ⟨rfl, rfl, hx, hy, ?_, ?_⟩
  · show x.drop (x.take (split_index x.length)).length =
        x.drop (split_index x.length)
    rw [hx]
  · show y.drop (y.take (split_index y.length)).length =
        y.drop (split_index y.length)
    rw [hy]

/-- Claim C8 (code behavior at the failing input): in a run that loads the
module and then calls `train`, `read_data` is invoked twice, not once: once
by the stray top-level statement on line 73 and once via `create_datasets`
inside the training loop. -/
theorem claim8_read_data_called_twice :
    full_run_calls.count PrepCall.read_data_invocation = 2 ∧
    full_run_calls.count PrepCall.read_data_invocation ≠ 1 := by decide

/-- Claim C9: a failure of the input load (missing file, malformed records,
shape mismatch) propagates unchanged through `read_data` and the training
loop: no recovery, no retry, and no result is produced. -/
theorem claim9_error_propagation (m : Nat)
    (shuffle : List (Transition Nat) → List (Transition Nat)) (rng : Nat → ℚ)
    (e : LoadError) :
    read_data_run m shuffle rng (Except.error e) = Except.error e ∧
    train_run m shuffle rng (Except.error e) = Except.error e :=
  ⟨rfl, rfl⟩

/-- Claim C1: for every sample retained by `read_data`, looking up the
pattern at the derived class label in the enumeration of available actions
yields exactly the sample's original action vector. -/
theorem claim1_label_lookup_identity (m : Nat)
    (shuffle : List (Transition Nat) → List (Transition Nat)) (rng : Nat → ℚ)
    (data0 : List (Transition Nat)) (s : Nat) (c : Int)
    (hmem : (s, c) ∈ List.zip (read_data m shuffle rng data0).1
      (read_data m shuffle rng data0).2) :
    ∃ d ∈ shuffle (inflate m data0), d.state = s ∧ derive_label d.action = c ∧
      ∃ h : c.toNat < available_actions.length,
        available_actions.get ⟨c.toNat, h⟩ = d.action := by
  rcases read_data_pair_mem m shuffle rng data0 s c hmem with
    ⟨d, hd, hs, hc, hne⟩
  obtain ⟨j, hj, hget, hlab⟩ :=
    derive_label_spec d.action (by rw [hc]; exact hne)
  have hct : c.toNat = j := by
    rw [← hc, hlab]
    exact Int.toNat_natCast j
  refine ⟨d, hd, hs, hc, ?_⟩
  rw [hct]
  exact ⟨hj, hget⟩

/-- Witness for C1 at a concrete one-element dataset holding one brake
transition, whose retained pair is `(5, 1)`. -/
theorem claim1_witness :
    ∃ d ∈ id (inflate 0 [(⟨5, [0, 0, 1], 0, 0, false⟩ : Transition Nat)]),
      d.state = 5 ∧ derive_label d.action = 1 ∧
      ∃ h : (1 : Int).toNat < available_actions.length,
        available_actions.get ⟨(1 : Int).toNat, h⟩ = d.action :=
  claim1_label_lookup_identity 0 id (fun _ => 0)
    [⟨5, [0, 0, 1], 0, 0, false⟩] 5 1 (by decide)

/-- Claim C2: every label retained by `read_data` is not the sentinel -1
and is a valid index of exactly one recognized action pattern, and the two
returned arrays have equal length after filtering and down-sampling. -/
theorem claim2_labels_valid_and_parallel (m : Nat)
    (shuffle : List (Transition Nat) → List (Transition Nat)) (rng : Nat → ℚ)
    (data0 : List (Transition Nat)) (c : Int)
    (hmem : c ∈ (read_data m shuffle rng data0).2) :
    c ≠ -1 ∧
    (∃ h : c.toNat < available_actions.length,
      ∀ j (hj : j < available_actions.length),
        available_actions.get ⟨j, hj⟩ = available_actions.get ⟨c.toNat, h⟩ →
          j = c.toNat) ∧
    (read_data m shuffle rng data0).1.length =
      (read_data m shuffle rng data0).2.length := by
  rcases read_data_label_mem m shuffle rng data0 c hmem with ⟨d, hd, hc, hne⟩
  obtain ⟨j, hj, hget, hlab⟩ :=
    derive_label_spec d.action (by rw [hc]; exact hne)
  have hct : c.toNat = j := by
    rw [← hc, hlab]
    exact Int.toNat_natCast j
  refine ⟨hne, ?_, read_data_lengths m shuffle rng data0⟩
  rw [hct]
  refine ⟨hj, ?_⟩
  intro j2 hj2 heq
  have hfin := (List.Nodup.get_inj_iff available_actions_nodup).mp heq
  exact congrArg Fin.val hfin

/-- Witness for C2 at a concrete one-element dataset holding one brake
transition, whose retained label is 1. -/
theorem claim2_witness :
    (1 : Int) ≠ -1 ∧
    (∃ h : (1 : Int).toNat < available_actions.length,
      ∀ j (hj : j < available_actions.length),
        available_actions.get ⟨j, hj⟩ =
            available_actions.get ⟨(1 : Int).toNat, h⟩ →
          j = (1 : Int).toNat) ∧
    (read_data 0 id (fun _ => 0)
        [(⟨5, [0, 0, 1], 0, 0, false⟩ : Transition Nat)]).1.length =
      (read_data 0 id (fun _ => 0)
        [(⟨5, [0, 0, 1], 0, 0, false⟩ : Transition Nat)]).2.length :=
  claim2_labels_valid_and_parallel 0 id (fun _ => 0)
    [⟨5, [0, 0, 1], 0, 0, false⟩] 1 (by decide)

/-- Claim C4: in the down-sampling step of `read_data`, a sample of the
accelerate class is retained exactly when its uniform draw exceeds 0.7
(the k-th accelerate sample consuming the k-th draw), and every sample of
every other class is retained unconditionally. -/
theorem claim4_downsample_rule (rng : Nat → ℚ) (cs : List Int) (j : Nat)
    (h : j < cs.length) :
    (down_mask accel_class rng cs 0).length = cs.length ∧
    (cs.get ⟨j, h⟩ = accel_class →
      ((down_mask accel_class rng cs 0).getD j false = true ↔
        rng ((cs.take j).count accel_class) > 7/10)) ∧
    (cs.get ⟨j, h⟩ ≠ accel_class →
      (down_mask accel_class rng cs 0).getD j false = true) := by
  refine ⟨down_mask_length accel_class rng cs 0, ?_, ?_⟩
  · intro hacc
    rw [down_mask_getD accel_class rng cs 0 j h, if_pos hacc, Nat.zero_add]
    exact decide_eq_true_iff
  · intro hacc
    rw [down_mask_getD accel_class rng cs 0 j h, if_neg hacc]

/-- Witness for C4 at a concrete one-element class list whose only label is
not the accelerate class. -/
theorem claim4_witness :
    (down_mask accel_class (fun _ => 0) [1] 0).getD 0 false = true :=
  (claim4_downsample_rule (fun _ => 0) [1] 0 (by decide)).2.2 (by decide)

/-- Claim C7: in every one of the EPOCHS = 30 epochs of `train`, the steps
occur in the order banner, training pass, evaluation pass, checkpoint
write to the fixed path; the write happens unconditionally in each epoch. -/
theorem claim7_epoch_order_and_save :
    (∀ e, e < EPOCHS → (train_trace.drop (4 * e)).take 4 = epoch_body e) ∧
    train_trace.countP is_save = EPOCHS ∧
    train_trace.length = 4 * EPOCHS := by decide

/-- Witness for C7 at epoch 0. -/
theorem claim7_witness :
    (train_trace.drop (4 * 0)).take 4 = epoch_body 0 :=
  claim7_epoch_order_and_save.1 0 (by decide)

theorem mask_filter_replicate_true_len {α : Type} (n : Nat) (xs : List α)
    (h : xs.length = n) : mask_filter (List.replicate n true) xs = xs := by
  rw [← h]
  exact mask_filter_replicate_true xs

/-- Counterexample to Claim C5 as stated: with the code as configured
(MULTIPLY_RARE_EVENTS = 30), feeding the synthetic four-transition dataset
does not return 3 retained samples — the brake and left+brake transitions
are inflated to 31 copies each, so 63 samples are retained (here with the
identity shuffle and every uniform draw equal to 9/10). -/
theorem claim5_counterexample :
    ¬ ((read_data MULTIPLY_RARE_EVENTS id (fun _ => (9 : ℚ)/10)
        synthetic4).2.length = 3) := by
  have hrng : ∀ k : Nat, ((fun _ => (9 : ℚ)/10) k) > 7/10 := fun k => by
    norm_num
  rw [read_data_eq]
  simp only
  rw [down_mask_all_true accel_class _ hrng,
    mask_filter_replicate_true_len _ _ rfl]
  decide

/-- Claim C5 as amended: with inflation disabled (multiplier at most 1),
any permutation as the shuffle, and every uniform draw exceeding 0.7 (so
the accelerate sample survives down-sampling), `read_data` on the synthetic
four-transition dataset returns exactly 3 retained samples, whose labels
are exactly the indices 0, 1, 2 of the first three enumerated patterns. -/
theorem claim5_amended_end_to_end (m : Nat)
    (shuffle : List (Transition Nat) → List (Transition Nat)) (rng : Nat → ℚ)
    (hm : m ≤ 1) (hperm : ∀ l, (shuffle l).Perm l)
    (hrng : ∀ k, rng k > 7/10) :
    (read_data m shuffle rng synthetic4).1.length = 3 ∧
    (read_data m shuffle rng synthetic4).2.length = 3 ∧
    (read_data m shuffle rng synthetic4).2.Perm [0, 1, 2] := by
  have hinf : inflate m synthetic4 = synthetic4 := inflate_skip m hm synthetic4
  have hp : ((shuffle synthetic4).filter recognized).Perm
      (synthetic4.filter recognized) :=
    List.Perm.filter recognized (hperm synthetic4)
  have hlen3 : ((shuffle synthetic4).filter recognized).length = 3 := by
    rw [hp.length_eq]
    decide
  have he : (synthetic4.filter recognized).map
      (fun d => derive_label d.action) = [0, 1, 2] := by decide
  rw [read_data_eq, hinf]
  simp only
  rw [down_mask_all_true accel_class rng hrng,
    mask_filter_replicate_true_len _ _ (by simp),
    mask_filter_replicate_true_len _ _ rfl]
  refine ⟨by simp [hlen3], by simp [hlen3], ?_⟩
  have hp2 := hp.map (fun d => derive_label d.action)
  rw [he] at hp2
  exact hp2

/-- Witness for the amended C5 at multiplier 1, the identity shuffle, and
all draws equal to 1. -/
theorem claim5_witness :
    (read_data 1 id (fun _ => (1 : ℚ)) synthetic4).1.length = 3 ∧
    (read_data 1 id (fun _ => (1 : ℚ)) synthetic4).2.length = 3 ∧
    (read_data 1 id (fun _ => (1 : ℚ)) synthetic4).2.Perm [0, 1, 2] :=
  claim5_amended_end_to_end 1 id (fun _ => 1) (by decide)
    (fun l => List.Perm.refl l) (fun k => by norm_num)
